import Mathlib

/-!
Verification of the client-side tabular data engine of the HR management
application: the shared `DataTable` component (its custom `globalFilterFn`)
together with the search/sort/filter/paginate row pipeline it configures.

JavaScript strings are embedded as `List Char` (`JStr`); `String.prototype.includes`
is substring containment, `toLowerCase` is a character-wise map.  Record fields
that may be absent on a row object are `Option`-valued; the source's
`x?.toLowerCase() || ''` idiom becomes `extractOpt`.
-/

abbrev JStr := List Char

/-- Conversion from Lean string literals to the embedded JS string type. -/
def js (s : String) : JStr := s.data

/-- JS `String.prototype.toLowerCase` (character-wise, ASCII as in `Char.toLower`). -/
def lowerJStr (s : JStr) : JStr := s.map Char.toLower

/-- JS `hay.includes(needle)`: substring (contiguous) containment. -/
def strIncludes (hay needle : JStr) : Bool := decide (needle <:+: hay)

/-- The nested `user` object carried by report rows (all fields optional). -/
structure NestedUser where
  firstName : Option JStr
  lastName : Option JStr
  email : Option JStr
  position : Option JStr
  deriving DecidableEq

/-- An entry of the auxiliary `employees` lookup array (User schema fields). -/
structure Employee where
  id : Nat
  firstName : JStr
  lastName : JStr
  email : JStr
  position : JStr
  deriving DecidableEq

/-- A table record (`row.original`): the searchable fields probed by
`globalFilterFn`, each possibly absent, plus the foreign-key `userId` and the
nested `user` object. -/
structure Rec where
  firstName : Option JStr
  lastName : Option JStr
  email : Option JStr
  username : Option JStr
  position : Option JStr
  type : Option JStr
  reason : Option JStr
  status : Option JStr
  userId : Option Nat
  user : Option NestedUser
  deriving DecidableEq

/-- The source idiom `x?.toLowerCase() || ''`: lowercase the field when
present, otherwise the empty string. -/
def extractOpt (o : Option JStr) : JStr :=
  match o with
  | some s => lowerJStr s
  | none => []

/-- Names of the eight directly-probed searchable fields of a record. -/
inductive SField
  | sfFirst | sfLast | sfEmail | sfUsername | sfPosition | sfType | sfReason | sfStatus
  deriving DecidableEq

/-- Read one of the eight searchable fields off a record. -/
def optField (r : Rec) : SField → Option JStr
  | .sfFirst => r.firstName
  | .sfLast => r.lastName
  | .sfEmail => r.email
  | .sfUsername => r.username
  | .sfPosition => r.position
  | .sfType => r.type
  | .sfReason => r.reason
  | .sfStatus => r.status

/-- The lowercased-with-default value of a searchable field, as the source
computes it on lines 70-77. -/
def extractField (r : Rec) (f : SField) : JStr := extractOpt (optField r f)

/-- Source lines 80-86: the rendered employee name resolved through the
auxiliary lookup.  JS truthiness of `rowData?.userId` requires a nonzero id;
the `employees?.length > 0` guard and the `find` are mirrored directly;
unresolved ids leave the name as the empty string. -/
def employeeName (employees : List Employee) (r : Rec) : JStr :=
  match r.userId with
  | some uid =>
    if uid ≠ 0 ∧ 0 < employees.length then
      match employees.find? (fun e => e.id == uid) with
      | some e => lowerJStr (e.firstName ++ [' '] ++ e.lastName)
      | none => []
    else []
  | none => []

/-- Source lines 89-98: `rowData.user.firstName?.toLowerCase() || ''` when the
nested user object is present, else the initial empty string. -/
def userFirstName (r : Rec) : JStr :=
  match r.user with
  | some u => extractOpt u.firstName
  | none => []

/-- Source lines 89-98, `lastName` component. -/
def userLastName (r : Rec) : JStr :=
  match r.user with
  | some u => extractOpt u.lastName
  | none => []

/-- Source lines 89-98, `email` component. -/
def userEmail (r : Rec) : JStr :=
  match r.user with
  | some u => extractOpt u.email
  | none => []

/-- Source lines 89-98, `position` component. -/
def userPosition (r : Rec) : JStr :=
  match r.user with
  | some u => extractOpt u.position
  | none => []

/-- Embedding of the custom `globalFilterFn` of the `DataTable` component
(source lines 63-115): the guard `if (!value) return true`, then the
fifteen `includes(search)` disjuncts in source order, ending with the
template-literal concatenations that always contain a literal space. -/
def globalFilterFn (employees : List Employee) (r : Rec) (value : JStr) : Bool :=
  if value = [] then true
  else
    let search := lowerJStr value
    strIncludes (extractField r .sfFirst) search ||
    strIncludes (extractField r .sfLast) search ||
    strIncludes (extractField r .sfEmail) search ||
    strIncludes (extractField r .sfUsername) search ||
    strIncludes (extractField r .sfPosition) search ||
    strIncludes (extractField r .sfType) search ||
    strIncludes (extractField r .sfReason) search ||
    strIncludes (extractField r .sfStatus) search ||
    strIncludes (employeeName employees r) search ||
    strIncludes (userFirstName r) search ||
    strIncludes (userLastName r) search ||
    strIncludes (userEmail r) search ||
    strIncludes (userPosition r) search ||
    strIncludes (extractField r .sfFirst ++ [' '] ++ extractField r .sfLast) search ||
    strIncludes (userFirstName r ++ [' '] ++ userLastName r) search

/-- The fifteen strings `globalFilterFn` probes, in source order. -/
def searchStrings (employees : List Employee) (r : Rec) : List JStr :=
  [extractField r .sfFirst, extractField r .sfLast, extractField r .sfEmail,
   extractField r .sfUsername, extractField r .sfPosition, extractField r .sfType,
   extractField r .sfReason, extractField r .sfStatus,
   employeeName employees r,
   userFirstName r, userLastName r, userEmail r, userPosition r,
   extractField r .sfFirst ++ [' '] ++ extractField r .sfLast,
   userFirstName r ++ [' '] ++ userLastName r]

theorem globalFilterFn_eq_any (employees : List Employee) (r : Rec) (value : JStr) :
    globalFilterFn employees r value =
      (decide (value = []) || (searchStrings employees r).any
        (fun hay => strIncludes hay (lowerJStr value))) := by
  by_cases h : value = []
  · simp [globalFilterFn, searchStrings, h]
  · simp only [globalFilterFn, searchStrings, if_neg h, List.any_cons, List.any_nil,
      decide_eq_false h, Bool.or_false, Bool.false_or, Bool.or_assoc]

/-- A record with every field absent. -/
def blankRec : Rec :=
  { firstName := none, lastName := none, email := none, username := none,
    position := none, type := none, reason := none, status := none,
    userId := none, user := none }

/-- Scenario A, first record: `{first:"Ann",last:"Lee",email:"a@x.com"}`. -/
def annRec : Rec :=
  { blankRec with
    firstName := some (js "Ann")
    lastName := some (js "Lee")
    email := some (js "a@x.com") }

/-- Scenario A, second record: `{first:"Bob",last:"Lee",email:"b@x.com"}`. -/
def bobRec : Rec :=
  { blankRec with
    firstName := some (js "Bob")
    lastName := some (js "Lee")
    email := some (js "b@x.com") }

theorem strIncludes_iff (hay needle : JStr) :
    strIncludes hay needle = true ↔ needle <:+: hay := by
  simp [strIncludes]

theorem strIncludes_nil (needle : JStr) (h : needle ≠ []) :
    strIncludes ([] : JStr) needle = false := by
  simp [strIncludes, List.infix_nil, h]

theorem lowerJStr_ne_nil (v : JStr) (h : v ≠ []) : lowerJStr v ≠ [] := by
  simpa [lowerJStr] using h

theorem lowerJStr_append (s t : JStr) :
    lowerJStr (s ++ t) = lowerJStr s ++ lowerJStr t := by
  simp [lowerJStr]

/-- C10: the global filter string consisting of a single space matches every
record, even one on which every searchable field is absent, because the
matcher always tests the template concatenation of first name, a literal
space, and last name. -/
theorem c10_space_filter_matches_every_record (employees : List Employee) (r : Rec) :
    globalFilterFn employees r (js " ") = true := by
  rw [globalFilterFn_eq_any]
  have hmem : (extractField r .sfFirst ++ [' '] ++ extractField r .sfLast) ∈
      searchStrings employees r := by
    simp [searchStrings]
  have hinc : strIncludes (extractField r .sfFirst ++ [' '] ++ extractField r .sfLast)
      (lowerJStr (js " ")) = true := by
    rw [strIncludes_iff]
    have hsp : lowerJStr (js " ") = [' '] := by decide
    rw [hsp]
    exact ⟨extractField r .sfFirst, extractField r .sfLast, by simp⟩
  have hany : (searchStrings employees r).any
      (fun hay => strIncludes hay (lowerJStr (js " "))) = true :=
    List.any_eq_true.mpr ⟨_, hmem, hinc⟩
  simp [hany]

/-- C9: an absent searchable field is substituted with the empty string before
comparison (the evaluation is a total function, so no fault is ever raised),
and the empty substitute never satisfies the containment test for a non-empty
query, so an absent field on its own never makes the record match. -/
theorem c9_absent_field_empty_and_non_matching (r : Rec) (f : SField) (s : JStr)
    (h1 : optField r f = none) (h2 : s ≠ []) :
    extractField r f = [] ∧ strIncludes (extractField r f) (lowerJStr s) = false := by
  have he : extractField r f = [] := by simp [extractField, h1, extractOpt]
  refine ⟨he, ?_⟩
  rw [he]
  exact strIncludes_nil _ (lowerJStr_ne_nil s h2)

theorem c9_witness :
    extractField blankRec .sfFirst = [] ∧
      strIncludes (extractField blankRec .sfFirst) (lowerJStr (js "x")) = false :=
  c9_absent_field_empty_and_non_matching blankRec .sfFirst (js "x") rfl (by decide)

/-- C5: appending extra characters to the global filter string can only shrink
the set of matched records. -/
theorem c5_filter_monotone (recs : List Rec) (employees : List Employee) (s t : JStr) :
    (recs.filter fun r => globalFilterFn employees r (s ++ t)) ⊆
      (recs.filter fun r => globalFilterFn employees r s) := by
  intro r hr
  rw [List.mem_filter] at hr ⊢
  refine ⟨hr.1, ?_⟩
  have h2 := hr.2
  by_cases hs : s = []
  · simp [globalFilterFn, hs]
  · have hst : s ++ t ≠ [] := by simp [List.append_eq_nil, hs]
    rw [globalFilterFn_eq_any] at h2 ⊢
    rw [decide_eq_false hst, Bool.false_or] at h2
    obtain ⟨hay, hmem, hinc⟩ := List.any_eq_true.mp h2
    have hsub : lowerJStr s <:+: hay := by
      have h3 : lowerJStr (s ++ t) <:+: hay := (strIncludes_iff _ _).mp hinc
      rw [lowerJStr_append] at h3
      obtain ⟨u, w, huw⟩ := h3
      exact ⟨u, lowerJStr t ++ w, by rw [← huw]; simp [List.append_assoc]⟩
    have hany : (searchStrings employees r).any
        (fun hay => strIncludes hay (lowerJStr s)) = true :=
      List.any_eq_true.mpr ⟨hay, hmem, (strIncludes_iff _ _).mpr hsub⟩
    simp [hany]

theorem c5_witness :
    annRec ∈ ([annRec, bobRec].filter fun r => globalFilterFn [] r (js "le")) :=
  c5_filter_monotone [annRec, bobRec] [] (js "le") (js "e") (by decide)

theorem strIncludes_space_absorb (F L s : JStr) (hW : strIncludes [' '] s = true) :
    strIncludes (F ++ [' '] ++ L) s = true := by
  rw [strIncludes_iff] at hW ⊢
  rcases List.sublist_singleton.mp hW.sublist with hnil | hsp
  · subst hnil; exact List.nil_infix
  · subst hsp; exact ⟨F, L, by simp⟩

/-- Containment test performed only when the field is present on the record
(used by the claim-worded and amended characterizations, which condition on
field presence instead of substituting an empty string). -/
def presentMatch (o : Option JStr) (search : JStr) : Bool :=
  match o with
  | some x => strIncludes (lowerJStr x) search
  | none => false

theorem presentMatch_eq_extract (o : Option JStr) (s : JStr) (hs : s ≠ []) :
    presentMatch o s = strIncludes (extractOpt o) s := by
  cases o with
  | some x => rfl
  | none => simp [presentMatch, extractOpt, strIncludes_nil _ hs]

/-- The matching predicate exactly as claim C1 words it: the eight direct
fields when present, the record's "first last" concatenation, and - when the
record carries a foreign-key id resolvable via the auxiliary lookup - the
resolved entity's first/last/email/position fields and their concatenation.
Written from the claim's words, to be compared with the source-derived
`globalFilterFn`. -/
def specC1Match (employees : List Employee) (r : Rec) (value : JStr) : Bool :=
  decide (value = []) ||
    (let search := lowerJStr value
     presentMatch r.firstName search ||
     presentMatch r.lastName search ||
     presentMatch r.email search ||
     presentMatch r.username search ||
     presentMatch r.position search ||
     presentMatch r.type search ||
     presentMatch r.reason search ||
     presentMatch r.status search ||
     strIncludes (extractField r .sfFirst ++ [' '] ++ extractField r .sfLast) search ||
     (match r.userId with
      | some uid =>
        match employees.find? (fun e => e.id == uid) with
        | some e =>
          strIncludes (lowerJStr e.firstName) search ||
          strIncludes (lowerJStr e.lastName) search ||
          strIncludes (lowerJStr e.email) search ||
          strIncludes (lowerJStr e.position) search ||
          strIncludes (lowerJStr (e.firstName ++ [' '] ++ e.lastName)) search
        | none => false
      | none => false))

/-- A record whose only data is a nested `user` object with an email: the
code's global filter searches it, but claim C1's field list does not cover it. -/
def nestedOnlyRec : Rec :=
  { blankRec with
    user := some { firstName := none, lastName := none,
                   email := some (js "zz@x.com"), position := none } }

/-- C1 counterexample: on a record carrying only a nested `user` object with
email "zz@x.com" and an empty auxiliary lookup, filter "zz" is kept by the
code's global filter but is not matched by the claim's field list, so the
"exactly those records" characterization of claim C1 is false. -/
theorem c1_counterexample :
    globalFilterFn [] nestedOnlyRec (js "zz") = true ∧
      specC1Match [] nestedOnlyRec (js "zz") = false ∧
      ([nestedOnlyRec].filter fun r => globalFilterFn [] r (js "zz")) = [nestedOnlyRec] ∧
      ([nestedOnlyRec].filter fun r => specC1Match [] r (js "zz")) = [] := by
  refine ⟨by decide, by decide, by decide, by decide⟩

/-- The amended C1 matching predicate: the eight direct fields when present;
the "first last" concatenation of the resolved employee when a nonzero
foreign-key id resolves via the auxiliary lookup; the nested user object's
first/last/email/position fields and "first last" concatenation when that
object is present; the record's own "first last" concatenation; empty filter
matches everything. -/
def amendedMatch (employees : List Employee) (r : Rec) (value : JStr) : Bool :=
  decide (value = []) ||
    (let search := lowerJStr value
     presentMatch r.firstName search ||
     presentMatch r.lastName search ||
     presentMatch r.email search ||
     presentMatch r.username search ||
     presentMatch r.position search ||
     presentMatch r.type search ||
     presentMatch r.reason search ||
     presentMatch r.status search ||
     (match r.userId with
      | some uid =>
        uid != 0 &&
          (match employees.find? (fun e => e.id == uid) with
           | some e => strIncludes (lowerJStr (e.firstName ++ [' '] ++ e.lastName)) search
           | none => false)
      | none => false) ||
     (match r.user with
      | some u =>
        presentMatch u.firstName search ||
        presentMatch u.lastName search ||
        presentMatch u.email search ||
        presentMatch u.position search
      | none => false) ||
     strIncludes (extractField r .sfFirst ++ [' '] ++ extractField r .sfLast) search ||
     (match r.user with
      | some u =>
        strIncludes (extractOpt u.firstName ++ [' '] ++ extractOpt u.lastName) search
      | none => false))

theorem employeeName_clause_eq (employees : List Employee) (r : Rec) (s : JStr)
    (hs : s ≠ []) :
    strIncludes (employeeName employees r) s =
      (match r.userId with
       | some uid =>
         uid != 0 &&
           (match employees.find? (fun e => e.id == uid) with
            | some e => strIncludes (lowerJStr (e.firstName ++ [' '] ++ e.lastName)) s
            | none => false)
       | none => false) := by
  unfold employeeName
  cases huid : r.userId with
  | none => simp [strIncludes_nil _ hs]
  | some uid =>
    by_cases h0 : uid = 0
    · subst h0
      simp [strIncludes_nil _ hs]
    · cases employees with
      | nil => simp [h0, strIncludes_nil _ hs]
      | cons a as =>
        cases hfind : (a :: as).find? (fun e => e.id == uid) with
        | none => simp [hfind, h0, strIncludes_nil _ hs]
        | some e => simp [hfind, h0]

/-- C1 (amended): the rows kept by the global filter are exactly those where
the query occurs case-insensitively in one of the eight direct fields (when
present), in the record's "first last" concatenation, in the resolved
employee's "first last" concatenation when a nonzero foreign-key id resolves
via the auxiliary lookup, or in the nested user object's
first/last/email/position fields or "first last" concatenation when that
object is present; the empty filter matches every record.  Scenario A: filter
"lee" keeps both Ann Lee and Bob Lee, filter "ann" keeps only Ann. -/
theorem c1_amended_global_filter_characterization :
    (∀ (employees : List Employee) (r : Rec) (value : JStr),
        globalFilterFn employees r value = amendedMatch employees r value) ∧
      ([annRec, bobRec].filter fun r => globalFilterFn [] r (js "lee")) = [annRec, bobRec] ∧
      ([annRec, bobRec].filter fun r => globalFilterFn [] r (js "ann")) = [annRec] := by
  refine ⟨?_, by decide, by decide⟩
  intro employees r value
  by_cases h : value = []
  · simp [globalFilterFn, amendedMatch, h]
  · have hs : lowerJStr value ≠ [] := lowerJStr_ne_nil value h
    simp only [globalFilterFn, amendedMatch, if_neg h, decide_eq_false h, Bool.false_or,
      extractField, optField, presentMatch_eq_extract _ _ hs,
      employeeName_clause_eq employees r _ hs]
    cases hu : r.user with
    | some u =>
      simp only [userFirstName, userLastName, userEmail, userPosition, hu,
        presentMatch_eq_extract _ _ hs, Bool.or_assoc]
    | none =>
      simp only [userFirstName, userLastName, userEmail, userPosition, hu,
        strIncludes_nil _ hs, Bool.or_false, Bool.false_or, List.nil_append, List.append_nil]
      by_cases hW : strIncludes [' '] (lowerJStr value) = true
      · have hC := strIncludes_space_absorb (extractOpt r.firstName) (extractOpt r.lastName)
          (lowerJStr value) hW
        simp [hC, hW]
        exact Or.inr (by simpa using hC)
      · have hWf : strIncludes [' '] (lowerJStr value) = false := by
          revert hW; cases strIncludes [' '] (lowerJStr value) <;> simp
        simp [hWf]

/-- Modelled from the spec: the sort direction of the table library's
single-column sort state (the sorted row model itself is not part of this
repository). -/
inductive SortDir
  | asc | desc
  deriving DecidableEq

/-- Modelled from the spec: stable insertion of an element before the first
already-placed element it compares less-or-equal to. -/
def insertSorted (le : α → α → Bool) (x : α) : List α → List α
  | [] => [x]
  | y :: ys => if le x y then x :: y :: ys else y :: insertSorted le x ys

/-- Modelled from the spec: the stable sort performed by the table library's
sorted row model, which is not part of this repository: "Sorting is stable
(ties preserve original relative order)". -/
def stableSort (le : α → α → Bool) : List α → List α
  | [] => []
  | x :: xs => insertSorted le x (stableSort le xs)

/-- Modelled from the spec: the sorted row view - natural insertion order when
no sort key is active, otherwise a stable sort by the active column's accessor
value, ascending or descending. -/
def sortedView (colKey : κ → α → Nat) : Option (κ × SortDir) → List α → List α
  | none, l => l
  | some (c, SortDir.asc), l => stableSort (fun a b => decide (colKey c a ≤ colKey c b)) l
  | some (c, SortDir.desc), l => stableSort (fun a b => decide (colKey c b ≤ colKey c a)) l

/-- Modelled from the spec: header activation cycles
none → ascending → descending → none on the same column and replaces the sort
key (restarting at ascending) when a different column is activated. -/
def toggleSort [DecidableEq κ] (c : κ) : Option (κ × SortDir) → Option (κ × SortDir)
  | none => some (c, SortDir.asc)
  | some (c', d) =>
    if c' = c then
      match d with
      | SortDir.asc => some (c, SortDir.desc)
      | SortDir.desc => none
    else some (c, SortDir.asc)

theorem filter_insertSorted (le : α → α → Bool) (p : α → Bool) (x : α)
    (hties : ∀ a b, p a = true → p b = true → le a b = true) :
    ∀ l : List α, (insertSorted le x l).filter p =
      if p x then x :: l.filter p else l.filter p
  | [] => by by_cases hpx : p x <;> simp [insertSorted, List.filter_cons, hpx]
  | y :: ys => by
    by_cases hxy : le x y = true
    · rw [insertSorted, if_pos hxy]
      by_cases hpx : p x <;> simp [List.filter_cons, hpx]
    · rw [insertSorted, if_neg hxy]
      by_cases hpy : p y = true
      · by_cases hpx : p x = true
        · exact absurd (hties x y hpx hpy) hxy
        · simp [List.filter_cons, hpy, hpx, filter_insertSorted le p x hties ys]
      · simp [List.filter_cons, hpy, filter_insertSorted le p x hties ys]

theorem filter_stableSort (le : α → α → Bool) (p : α → Bool)
    (hties : ∀ a b, p a = true → p b = true → le a b = true) :
    ∀ l : List α, (stableSort le l).filter p = l.filter p
  | [] => rfl
  | x :: xs => by
    rw [stableSort, filter_insertSorted le p x hties, filter_stableSort le p hties xs]
    by_cases hpx : p x <;> simp [List.filter_cons, hpx]

/-- C6: sorting is stable - for any active sort key and direction, the records
tied on any value of that key appear in the sorted view in exactly their
original relative order (their subsequence is unchanged). -/
theorem c6_sort_stable (colKey : κ → α → Nat) (c : κ) (d : SortDir)
    (k : Nat) (l : List α) :
    (sortedView colKey (some (c, d)) l).filter (fun x => colKey c x == k) =
      l.filter (fun x => colKey c x == k) := by
  cases d
  · exact filter_stableSort _ _
      (fun a b ha hb => by
        have h1 : colKey c a = k := by simpa using ha
        have h2 : colKey c b = k := by simpa using hb
        simp [h1, h2]) l
  · exact filter_stableSort _ _
      (fun a b ha hb => by
        have h1 : colKey c a = k := by simpa using ha
        have h2 : colKey c b = k := by simpa using hb
        simp [h1, h2]) l

/-- C7: repeated activation of one column cycles
none → ascending → descending → none, so the third activation restores the
original insertion order of the visible rows; activating a different column
replaces the sort key entirely. -/
theorem c7_sort_cycle [DecidableEq κ] (colKey : κ → α → Nat) (c c' : κ) (d : SortDir)
    (l : List α) (h : c' ≠ c) :
    toggleSort c none = some (c, SortDir.asc) ∧
      toggleSort c (some (c, SortDir.asc)) = some (c, SortDir.desc) ∧
      toggleSort c (some (c, SortDir.desc)) = none ∧
      sortedView colKey (toggleSort c (toggleSort c (toggleSort c none))) l = l ∧
      toggleSort c' (some (c, d)) = some (c', SortDir.asc) := by
  refine ⟨rfl, by simp [toggleSort], by simp [toggleSort],
    by simp [toggleSort, sortedView], ?_⟩
  show (if c = c' then _ else some (c', SortDir.asc)) = some (c', SortDir.asc)
  rw [if_neg (fun hh => h hh.symm)]

theorem c7_witness :
    toggleSort 0 none = some (0, SortDir.asc) ∧
      toggleSort 0 (some (0, SortDir.asc)) = some (0, SortDir.desc) ∧
      toggleSort 0 (some (0, SortDir.desc)) = none ∧
      sortedView (fun (_ : Nat) (n : Nat) => n)
        (toggleSort 0 (toggleSort 0 (toggleSort 0 none))) [3, 1, 2] = [3, 1, 2] ∧
      toggleSort 1 (some (0, SortDir.asc)) = some (1, SortDir.asc) :=
  c7_sort_cycle (fun (_ : Nat) (n : Nat) => n) 0 1 SortDir.asc [3, 1, 2] (by decide)

/-- Natural-number ceiling division, `ceil(n / size)`. -/
def ceilDivNat (n size : Nat) : Nat := (n + size - 1) / size

/-- Modelled from the spec: the page count reported by the pagination row
model (not part of this repository): the ceiling quotient of the filtered row
count by the page size, except that an empty filtered set still reports one
(empty) page ("page count becomes 1 with zero rows"). -/
def getPageCount (n size : Nat) : Nat := max 1 (ceilDivNat n size)

/-- Modelled from the spec: the filtered row model (not part of this
repository) keeps exactly the rows accepted by the configured global filter
function. -/
def filteredRecords (employees : List Employee) (recs : List Rec) (value : JStr) : List Rec :=
  recs.filter fun r => globalFilterFn employees r value

/-- Modelled from the spec: the slice of the (filtered → sorted) rows
belonging to page `idx` of size `size`. -/
def pageSlice (l : List α) (idx size : Nat) : List α := (l.drop (idx * size)).take size

/-- Modelled from the spec: the implicit page-index clamp - the index is kept
when still in range and reset to 0 only when it would be out of range. -/
def clampPageIndex (idx count : Nat) : Nat := if idx < count then idx else 0

/-- Modelled from the spec: the page index reported after the global filter
changes, obtained by clamping the previous index against the new page count
of the filtered set. -/
def setFilterPageIndex (employees : List Employee) (recs : List Rec) (value : JStr)
    (idx size : Nat) : Nat :=
  clampPageIndex idx (getPageCount (filteredRecords employees recs value).length size)

/-- Modelled from the spec: `nextPage`, a no-op on the last page. -/
def nextPageIdx (idx count : Nat) : Nat := if idx + 1 < count then idx + 1 else idx

/-- Modelled from the spec: `previousPage`, a no-op at page 0. -/
def prevPageIdx (idx : Nat) : Nat := if idx = 0 then 0 else idx - 1

/-- C2 counterexample: on the empty record array the filtered row count is 0
and ceil(0 / 10) = 0, yet the engine reports page count 1 (as the claim's own
empty-input clause demands), so "page count equals ceil(filtered-row-count /
page size)" is false at the empty input. -/
theorem c2_counterexample :
    (filteredRecords [] [] (js "")).length = 0 ∧
      ceilDivNat 0 10 = 0 ∧
      getPageCount (filteredRecords [] [] (js "")).length 10 = 1 ∧
      getPageCount (filteredRecords [] [] (js "")).length 10 ≠ ceilDivNat 0 10 := by
  refine ⟨rfl, rfl, rfl, by decide⟩

/-- C2 (amended): the reported page count is `max 1 (ceil(count / size))`,
which equals ceil(filtered-row-count / page size) whenever at least one row
passes the filter; on an empty input record array the filtered view is empty,
the page count is 1, and every page of visible rows is empty. -/
theorem c2_amended_page_count (employees : List Employee) (recs : List Rec) (value : JStr)
    (size idx : Nat) (hsize : 0 < size) :
    (1 ≤ (filteredRecords employees recs value).length →
      getPageCount (filteredRecords employees recs value).length size =
        ceilDivNat (filteredRecords employees recs value).length size) ∧
      filteredRecords employees [] value = [] ∧
      getPageCount (filteredRecords employees [] value).length size = 1 ∧
      pageSlice (filteredRecords employees [] value) idx size = [] := by
  refine ⟨?_, rfl, ?_, ?_⟩
  · intro hn
    have h1 : 1 ≤ ceilDivNat (filteredRecords employees recs value).length size :=
      (Nat.le_div_iff_mul_le hsize).mpr (by omega)
    simp [getPageCount, Nat.max_eq_right h1]
  · have h0 : (filteredRecords employees [] value).length = 0 := rfl
    rw [h0]
    simp only [getPageCount, ceilDivNat]
    rw [Nat.div_eq_of_lt (by omega : 0 + size - 1 < size)]
    omega
  · show pageSlice ([] : List Rec) idx size = []
    simp [pageSlice]

theorem c2_witness :
    (1 ≤ (filteredRecords [] [annRec] (js "")).length →
      getPageCount (filteredRecords [] [annRec] (js "")).length 10 =
        ceilDivNat (filteredRecords [] [annRec] (js "")).length 10) ∧
      filteredRecords [] [] (js "x") = [] ∧
      getPageCount (filteredRecords [] [] (js "x")).length 10 = 1 ∧
      pageSlice (filteredRecords [] [] (js "x")) 0 10 = [] := by
  have h := c2_amended_page_count [] [annRec] (js "") 10 0 (by decide)
  have h2 := c2_amended_page_count [] [] (js "x") 10 0 (by decide)
  exact ⟨h.1, h2.2.1, h2.2.2.1, h2.2.2.2⟩

/-- C3: after a global-filter change the reported page index lies in
`[0, newPageCount - 1]`; it is kept unchanged when still in range and reset
to 0 exactly when it would be out of range. -/
theorem c3_page_clamp (employees : List Employee) (recs : List Rec) (value : JStr)
    (idx size : Nat) :
    setFilterPageIndex employees recs value idx size <
        getPageCount (filteredRecords employees recs value).length size ∧
      (idx < getPageCount (filteredRecords employees recs value).length size →
        setFilterPageIndex employees recs value idx size = idx) ∧
      (getPageCount (filteredRecords employees recs value).length size ≤ idx →
        setFilterPageIndex employees recs value idx size = 0) := by
  have hc : 1 ≤ getPageCount (filteredRecords employees recs value).length size :=
    Nat.le_max_left 1 _
  unfold setFilterPageIndex clampPageIndex
  refine ⟨?_, fun h => by rw [if_pos h], fun h => by rw [if_neg (by omega)]⟩
  by_cases h : idx < getPageCount (filteredRecords employees recs value).length size
  · rw [if_pos h]; exact h
  · rw [if_neg h]; omega

theorem c3_witness :
    setFilterPageIndex [] [annRec] (js "lee") 3 10 <
        getPageCount (filteredRecords [] [annRec] (js "lee")).length 10 ∧
      setFilterPageIndex [] [annRec] (js "lee") 0 10 = 0 ∧
      setFilterPageIndex [] [annRec] (js "lee") 3 10 = 0 :=
  ⟨(c3_page_clamp [] [annRec] (js "lee") 3 10).1,
   (c3_page_clamp [] [annRec] (js "lee") 0 10).2.1 (by decide),
   (c3_page_clamp [] [annRec] (js "lee") 3 10).2.2 (by decide)⟩

theorem flatMap_range_succ_shift (f : Nat → List α) :
    ∀ k, (List.range (k + 1)).flatMap f = f 0 ++ (List.range k).flatMap (fun p => f (p + 1))
  | 0 => by simp [List.range_succ]
  | k + 1 => by
    rw [List.range_succ, List.flatMap_append, flatMap_range_succ_shift f k,
      List.range_succ, List.flatMap_append]
    simp [List.append_assoc]

theorem pageSlice_join (size : Nat) (hsize : 0 < size) :
    ∀ (k : Nat) (l : List α), l.length ≤ k * size →
      (List.range k).flatMap (fun p => pageSlice l p size) = l
  | 0, l, hl => by
    have h0 : l = [] := List.eq_nil_of_length_eq_zero (by omega)
    simp [h0]
  | k + 1, l, hl => by
    rw [flatMap_range_succ_shift]
    have hshift : ∀ p : Nat, pageSlice l (p + 1) size = pageSlice (l.drop size) p size := by
      intro p
      unfold pageSlice
      rw [List.drop_drop]
      have hps : (p + 1) * size = size + p * size := by ring
      rw [hps]
    simp only [hshift]
    have hlen : (l.drop size).length ≤ k * size := by
      rw [List.length_drop]
      have hks : (k + 1) * size = k * size + size := by ring
      omega
    rw [pageSlice_join size hsize k (l.drop size) hlen]
    simp [pageSlice]

theorem le_getPageCount_mul (n size : Nat) (hsize : 0 < size) :
    n ≤ getPageCount n size * size := by
  rcases Nat.eq_zero_or_pos n with h0 | h1
  · subst h0; exact Nat.zero_le _
  · have hq : 1 ≤ ceilDivNat n size := (Nat.le_div_iff_mul_le hsize).mpr (by omega)
    rw [getPageCount, Nat.max_eq_right hq]
    have hd := Nat.div_add_mod (n + size - 1) size
    have hm : (n + size - 1) % size < size := Nat.mod_lt _ hsize
    rw [Nat.mul_comm] at hd
    unfold ceilDivNat
    have key : ∀ A R : Nat, A + R = n + size - 1 → R < size → n ≤ A := by
      intro A R hAR hR
      omega
    exact key _ _ hd hm

/-- C4: iterating the pages 0 .. pageCount-1 and concatenating each page's
visible rows reproduces exactly the filtered-and-sorted record set, with no
duplicates and no omissions. -/
theorem c4_pagination_coverage (colKey : κ → Rec → Nat) (sortSt : Option (κ × SortDir))
    (employees : List Employee) (recs : List Rec) (value : JStr) (size : Nat)
    (hsize : 0 < size) :
    (List.range (getPageCount
        (sortedView colKey sortSt (filteredRecords employees recs value)).length size)).flatMap
      (fun p => pageSlice (sortedView colKey sortSt (filteredRecords employees recs value)) p size) =
      sortedView colKey sortSt (filteredRecords employees recs value) :=
  pageSlice_join size hsize _ _ (le_getPageCount_mul _ size hsize)

theorem c4_witness :
    (List.range (getPageCount
        (sortedView (fun (_ : Nat) (_ : Rec) => 0) none
          (filteredRecords [] [annRec, bobRec] (js "lee"))).length 10)).flatMap
      (fun p => pageSlice (sortedView (fun (_ : Nat) (_ : Rec) => 0) none
        (filteredRecords [] [annRec, bobRec] (js "lee"))) p 10) =
      sortedView (fun (_ : Nat) (_ : Rec) => 0) none
        (filteredRecords [] [annRec, bobRec] (js "lee")) :=
  c4_pagination_coverage (fun (_ : Nat) (_ : Rec) => 0) none [] [annRec, bobRec]
    (js "lee") 10 (by decide)

/-- Twelve records, as in Scenario B. -/
def recs12 : List Rec := List.replicate 12 annRec

/-- C8: `previousPage` is a no-op at page 0 and `nextPage` is a no-op on the
last page; Scenario B: 12 filtered records at page size 10 give a 10-row page
0, a 2-row page 1, page count 2, and two `nextPage()` calls from page 0 stay
on page 1. -/
theorem c8_page_boundaries (idx count : Nat) (h : idx + 1 = count) :
    prevPageIdx 0 = 0 ∧
      nextPageIdx idx count = idx ∧
      (filteredRecords [] recs12 (js "")).length = 12 ∧
      getPageCount 12 10 = 2 ∧
      (pageSlice (filteredRecords [] recs12 (js "")) 0 10).length = 10 ∧
      (pageSlice (filteredRecords [] recs12 (js "")) 1 10).length = 2 ∧
      nextPageIdx (nextPageIdx 0 2) 2 = 1 := by
  refine ⟨rfl, ?_, by decide, by decide, by decide, by decide, by decide⟩
  unfold nextPageIdx
  rw [if_neg (by omega)]

theorem c8_witness :
    prevPageIdx 0 = 0 ∧
      nextPageIdx 1 2 = 1 ∧
      (filteredRecords [] recs12 (js "")).length = 12 ∧
      getPageCount 12 10 = 2 ∧
      (pageSlice (filteredRecords [] recs12 (js "")) 0 10).length = 10 ∧
      (pageSlice (filteredRecords [] recs12 (js "")) 1 10).length = 2 ∧
      nextPageIdx (nextPageIdx 0 2) 2 = 1 :=
  c8_page_boundaries 1 2 rfl
